import Mathlib

/-!
Shallow embedding of tools/generate_project.py.

Python strings are modelled as lists of characters (PyStr).  The helper
functions below model the exact Python primitives the script uses:
substring containment (the in operator), str.split(sep, 1)[1], str.strip,
str.index, str.replace, negative-index list access, list item assignment
and list.pop, and the two regular expressions applied to header lines.
-/

namespace GenProj

abbrev PyStr := List Char

/-- Characters removed by Python str.strip() (ASCII whitespace; header lines
never contain non-ASCII whitespace). -/
def isPySpace (c : Char) : Bool :=
  c = ' ' || c = '\t' || c = '\n' || c = '\r' || c = '\x0b' || c = '\x0c'

/-- Test whether the pattern is a prefix of the string (models str.startswith,
used as the primitive for containment and anchored regexes). -/
def startsWithL : PyStr → PyStr → Bool
  | [], _ => true
  | _ :: _, [] => false
  | p :: ps, c :: cs => p = c && startsWithL ps cs

/-- Python substring containment: pat in s. -/
def containsSub (pat : PyStr) : PyStr → Bool
  | [] => pat.isEmpty
  | c :: rest => startsWithL pat (c :: rest) || containsSub pat rest

/-- Python s.split(sep, 1)[1] for a separator known to occur in s: everything
after the first occurrence of sep.  Returns [] when sep does not occur
(the script only calls this after checking containment). -/
def afterFirst (sep : PyStr) : PyStr → PyStr
  | [] => []
  | c :: rest =>
    if startsWithL sep (c :: rest) then (c :: rest).drop sep.length
    else afterFirst sep rest

/-- Python s.index(sub) for a substring known to occur in s: index of the
first occurrence.  Returns the length of s when sub does not occur. -/
def firstIdxOfSub (pat : PyStr) : PyStr → Nat
  | [] => 0
  | c :: rest => if startsWithL pat (c :: rest) then 0 else firstIdxOfSub pat rest + 1

/-- Python str.strip(): drop whitespace from both ends. -/
def pyStrip (s : PyStr) : PyStr :=
  ((s.dropWhile isPySpace).reverse.dropWhile isPySpace).reverse

/-- Fuel-driven worker for pyReplaceAll; the fuel is the length of the string,
which bounds the number of steps since every step consumes at least one
character.  An empty pattern leaves the string unchanged (the script only
replaces non-empty patterns). -/
def pyReplaceAllAux (pat rep : PyStr) : Nat → PyStr → PyStr
  | _, [] => []
  | 0, s => s
  | fuel + 1, c :: rest =>
    if pat.isEmpty then c :: rest
    else if startsWithL pat (c :: rest) then
      rep ++ pyReplaceAllAux pat rep fuel ((c :: rest).drop pat.length)
    else c :: pyReplaceAllAux pat rep fuel rest

/-- Python s.replace(pat, rep): replace every non-overlapping occurrence,
left to right. -/
def pyReplaceAll (pat rep s : PyStr) : PyStr :=
  pyReplaceAllAux pat rep s.length s

/-- Python l[i] with negative-index wraparound: l[i] is l[len(l)+i] for i < 0;
out-of-range access is an IndexError, modelled as none. -/
def pyGet (l : List α) (i : Int) : Option α :=
  if 0 ≤ i then l[i.toNat]?
  else if (-i).toNat ≤ l.length then l[l.length - (-i).toNat]? else none

/-- Python l[i] = a with negative-index wraparound; none models IndexError. -/
def pySet (l : List α) (i : Int) (a : α) : Option (List α) :=
  if 0 ≤ i then
    if i.toNat < l.length then some (l.set i.toNat a) else none
  else if (-i).toNat ≤ l.length then
    some (l.set (l.length - (-i).toNat) a)
  else none

/-- Python l.pop(i) with negative-index wraparound, returning the remaining
list; none models IndexError. -/
def pyPop (l : List α) (i : Int) : Option (List α) :=
  if 0 ≤ i then
    if i.toNat < l.length then some (l.eraseIdx i.toNat) else none
  else if (-i).toNat ≤ l.length then
    some (l.eraseIdx (l.length - (-i).toNat))
  else none

/-! ## CHIP_SPECIFIC_REGEX

The script classifies component identifiers with the anchored, case-insensitive
regular expression

  (?: (?:[a-z]+\d+){2,5}[a-z]* | brd\d+[a-z](?:_.+)? )

Because the letter and digit character classes are disjoint, the chip
alternative matches exactly the strings made of letters and digits that start
with a letter and whose maximal digit runs number between 2 and 5; matching is
therefore implemented as a single left-to-right scan counting letter-to-digit
transitions.  A fullmatch against dollar also succeeds one character before a
single trailing newline, hence the stripNewline below. -/

def isLetterCh (c : Char) : Bool :=
  ('a' ≤ c && c ≤ 'z') || ('A' ≤ c && c ≤ 'Z')

def isDigitCh (c : Char) : Bool :=
  '0' ≤ c && c ≤ '9'

/-- Scan for the chip alternative: prev is the previous character (already
seen, letter or digit), k counts completed letter-to-digit transitions,
that is, the number of maximal digit runs started so far. -/
def chipAux : Char → PyStr → Nat → Bool
  | _, [], k => decide (2 ≤ k) && decide (k ≤ 5)
  | prev, c :: rest, k =>
    if isDigitCh c then
      if isLetterCh prev then chipAux c rest (k + 1) else chipAux c rest k
    else if isLetterCh c then chipAux c rest k
    else false

/-- Chip alternative of CHIP_SPECIFIC_REGEX: (?:[a-z]+\d+){2,5}[a-z]*
anchored on both sides, case-insensitive. -/
def matchChipCore : PyStr → Bool
  | [] => false
  | c :: rest => isLetterCh c && chipAux c rest 0

def lowerEq (c target : Char) : Bool :=
  c = target || c = Char.ofNat (target.toNat - 32)

/-- Tail of the board alternative after the literal brd: digits+, one letter,
then optionally an underscore followed by at least one non-newline
character (the dot of the regex does not match a newline). -/
def boardTail (rest : PyStr) : Bool :=
  let ds := rest.takeWhile isDigitCh
  let r2 := rest.dropWhile isDigitCh
  !ds.isEmpty &&
    match r2 with
    | [] => false
    | c :: r3 =>
      isLetterCh c &&
        (r3.isEmpty ||
          match r3 with
          | '_' :: r4 => !r4.isEmpty && r4.all (fun d => d ≠ '\n')
          | _ => false)

/-- Board alternative of CHIP_SPECIFIC_REGEX: brd\d+[a-z](?:_.+)? anchored on
both sides, case-insensitive. -/
def matchBoardCore : PyStr → Bool
  | b :: r :: d :: rest => lowerEq b 'b' && lowerEq r 'r' && lowerEq d 'd' && boardTail rest
  | _ => false

/-- Drop a single trailing newline, as the dollar anchor also matches just
before a final newline. -/
def stripNewline (s : PyStr) : PyStr :=
  if s.getLast? = some '\n' then s.dropLast else s

/-- CHIP_SPECIFIC_REGEX.match(id): full anchored match of either alternative. -/
def chipSpecificMatch (id : String) : Bool :=
  let l := stripNewline id.toList
  matchChipCore l || matchBoardCore l

/-! ## Component resolution (lines 191-208)

Components are the YAML mappings of the component list; the script reads only
their id field and removes by whole-value equality, so they are modelled as
records with the id field. -/

structure Component where
  id : String
deriving DecidableEq

/-- Component resolution: strip every component whose id matches
CHIP_SPECIFIC_REGEX, append the device component, extend with the add-list,
then remove each remove-list entry (first occurrence; removing an absent
entry only logs a warning). -/
def resolveComponents (base : List Component) (device : String)
    (addC removeC : List Component) : List Component :=
  removeC.foldl (fun acc c => acc.erase c)
    ((base.filter (fun c => !chipSpecificMatch c.id) ++ [⟨device⟩]) ++ addC)

/-! ## Configuration and define merge (lines 210-226)

Destination entries are the YAML mappings with name and value fields; source
values are already coerced to strings (the loop applies str to each value
first).  For each source pair the loop replaces the value of the first
destination entry with a matching name, in place, and otherwise appends a new
entry at the end. -/

structure ConfigEntry where
  name : String
  value : String
deriving DecidableEq

/-- One iteration of the merge loop body for a single (name, value) pair:
replace the value of the first entry with a matching name, else append. -/
def replaceOrAppend (dest : List ConfigEntry) (n v : String) : List ConfigEntry :=
  match dest with
  | [] => [⟨n, v⟩]
  | e :: rest =>
    if e.name = n then ⟨e.name, v⟩ :: rest else e :: replaceOrAppend rest n v

/-- The merge loop over a whole source map, iterated in the map's insertion
order. -/
def mergeConfig (dest : List ConfigEntry) (src : List (String × String)) : List ConfigEntry :=
  src.foldl (fun d p => replaceOrAppend d p.1 p.2) dest

/-! ## Define Injection Engine (lines 314-370)

The engine scans each generated header, line by line.  For the first requested
define whose probe "#define NAME " occurs in the line it rewrites the line,
patches the preceding line when that is an include-guard opening or a
not-configured warning, records the written value, and consumes the name from
the unused set, aborting when the name was already consumed.  Uncaught Python
exceptions (failed asserts, .group(1) on a failed regex match, out-of-range
list indexing) are modelled as crash outcomes. -/

def defineKw : PyStr := "#define ".toList

def ifndefLit : PyStr := "#ifndef".toList

def warningLit : PyStr := "#warning".toList

def ifOneLit : PyStr := "#if 1".toList

def warnPrefixLit : PyStr := ("#warning " ++ "\"").toList

def notConfiguredLit : PyStr := (" not configured" ++ "\"").toList

def gitHashToken : PyStr := "{git_repo_hash}".toList

/-- Probe substring "#define NAME " whose containment in a line triggers the
rewrite (the trailing space prevents matching a longer identifier of which
NAME is a proper prefix). -/
def defineProbe (n : PyStr) : PyStr := defineKw ++ n ++ [' ']

/-- Characters of the regex class [A-Z0-9_]. -/
def isIdentCh (c : Char) : Bool :=
  ('A' ≤ c && c ≤ 'Z') || ('0' ≤ c && c ≤ '9') || c = '_'

/-- Result of re.match(r"#ifndef\s+([A-Z0-9_]+)", l).group(1): the guarded
identifier, or none when the regex does not match at the start of the line
(in which case .group(1) raises AttributeError). -/
def matchIfndefIdent (l : PyStr) : Option PyStr :=
  if startsWithL ifndefLit l then
    let r := l.drop 7
    let ws := r.takeWhile isPySpace
    let ident := (r.dropWhile isPySpace).takeWhile isIdentCh
    if ws.isEmpty || ident.isEmpty then none else some ident
  else none

/-- Search for a literal preceded only by non-newline characters, modelling
the lazy dot-star of the warning regex. -/
def findLit (lit : PyStr) : PyStr → Bool
  | [] => false
  | c :: rest => startsWithL lit (c :: rest) || (c ≠ '\n' && findLit lit rest)

/-- Truth of re.match(r'#warning ".*? not configured"', l). -/
def matchWarningOk (l : PyStr) : Bool :=
  startsWithL warnPrefixLit l && findLit notConfiguredLit (l.drop 10)

/-- Python str.format restricted to the engine's template environment: the
only replacement field the manifests use is {git_repo_hash}, substituted
by the resolved revision string. -/
def pyFormat (tmpl env : PyStr) : PyStr :=
  pyReplaceAll gitHashToken env tmpl

/-- Python dict item assignment d[k] = v on an association list with unique
keys: update the value in place, else append. -/
def dictSet (d : List (PyStr × PyStr)) (k v : PyStr) : List (PyStr × PyStr) :=
  if d.any (fun p => p.1 = k) then
    d.map (fun p => if p.1 = k then (k, v) else p)
  else d ++ [(k, v)]

/-- First requested define whose probe occurs in the line, with its value
template; the inner for-loop breaks at the first hit. -/
def scanLine (cfg : List (PyStr × PyStr)) (line : PyStr) : Option (PyStr × PyStr) :=
  cfg.find? (fun p => containsSub (defineProbe p.1) line)

inductive Crash where
  | assertFail
  | attrError
  | indexError
deriving DecidableEq

inductive GuardOut where
  | cont (acc : List PyStr)
  | fail (c : Crash)
deriving DecidableEq

/-- Handling of the line preceding a matched define declaration, operating on
the accumulator of already-emitted output lines at Python index prevIdx:
an include-guard opening is asserted to guard exactly this define and to
have no conflicting entry in the project's own define list, then rewritten
to "#if 1"; a warning line is asserted to have the not-configured shape,
then popped. -/
def guardRewrite (slcp : List (PyStr × PyStr)) (dfn : PyStr) (prevLine : PyStr)
    (acc : List PyStr) (prevIdx : Int) : GuardOut :=
  if containsSub ifndefLit prevLine then
    match matchIfndefIdent prevLine with
    | none => .fail .attrError
    | some g =>
      if g ≠ dfn then .fail .assertFail
      else if slcp.any (fun c => c.1 = dfn) then .fail .assertFail
      else
        match pySet acc prevIdx ifOneLit with
        | none => .fail .indexError
        | some acc2 => .cont acc2
  else if containsSub warningLit prevLine then
    if matchWarningOk prevLine then
      match pyPop acc prevIdx with
      | none => .fail .indexError
      | some acc2 => .cont acc2
    else .fail .assertFail
  else .cont acc

inductive FileResult where
  | ok (newLines : List PyStr) (written : List (PyStr × PyStr)) (unused : List PyStr)
  | exitDouble (name : PyStr)
  | err (c : Crash)
deriving DecidableEq

/-- Per-file scan loop.  allLines is the full line list of the header (the
preceding line is read from it with Python index index - 1, which wraps to
the last line when index is 0); the remaining argument drives the loop,
acc accumulates output lines, written the values written to this file, and
unused the not-yet-consumed requested names. -/
def processLines (cfg : List (PyStr × PyStr)) (slcp : List (PyStr × PyStr))
    (env : PyStr) (allLines : List PyStr) :
    List PyStr → Nat → List PyStr → List (PyStr × PyStr) → List PyStr → FileResult
  | [], _, acc, written, unused => .ok acc written unused
  | line :: rest, index, acc, written, unused =>
    match scanLine cfg line with
    | none => processLines cfg slcp env allLines rest (index + 1) (acc ++ [line]) written unused
    | some (dfn, tmpl) =>
      let dw := afterFirst (defineKw ++ dfn) line
      let alignment := dw.take (firstIdxOfSub (pyStrip dw) dw)
      match pyGet allLines ((index : Int) - 1) with
      | none => .err .indexError
      | some prevLine =>
        match guardRewrite slcp dfn prevLine acc ((index : Int) - 1) with
        | .fail c => .err c
        | .cont acc2 =>
          let value := pyFormat tmpl env
          let acc3 := acc2 ++ [defineKw ++ dfn ++ alignment ++ value]
          let written2 := dictSet written dfn value
          if dfn ∈ unused then
            processLines cfg slcp env allLines rest (index + 1) acc3 written2 (unused.erase dfn)
          else .exitDouble dfn

/-- Scan one header file. -/
def processFile (cfg slcp : List (PyStr × PyStr)) (env : PyStr)
    (lines : List PyStr) (unused : List PyStr) : FileResult :=
  processLines cfg slcp env lines lines 0 [] [] unused

/-- Outcome of the whole injection run.  outs records, per header file scanned
so far, whether the file was written back (some new lines) or left on disk
untouched (none, when nothing was written for it). -/
inductive EngineResult where
  | ok (outs : List (Option (List PyStr)))
  | exitDouble (outs : List (Option (List PyStr))) (name : PyStr)
  | exitUnused (outs : List (Option (List PyStr))) (unusedNames : List PyStr)
  | err (outs : List (Option (List PyStr))) (c : Crash)
deriving DecidableEq

def EngineResult.consOut (r : EngineResult) (o : Option (List PyStr)) : EngineResult :=
  match r with
  | .ok outs => .ok (o :: outs)
  | .exitDouble outs n => .exitDouble (o :: outs) n
  | .exitUnused outs u => .exitUnused (o :: outs) u
  | .err outs c => .err (o :: outs) c

/-- Loop over the header files, threading the unused-name set; a file is
written back only when at least one define was written into it.  After all
files, a non-empty unused set aborts, reporting the whole set. -/
def runFiles (cfg slcp : List (PyStr × PyStr)) (env : PyStr) :
    List (List PyStr) → List PyStr → EngineResult
  | [], unused => if unused.isEmpty then .ok [] else .exitUnused [] unused
  | f :: fs, unused =>
    match processFile cfg slcp env f unused with
    | .ok newLines written unused2 =>
      (runFiles cfg slcp env fs unused2).consOut
        (if written.isEmpty then none else some newLines)
    | .exitDouble n => .exitDouble [] n
    | .err c => .err [] c

/-- The Define Injection Engine: the unused set starts as the requested
define names (set(manifest c_defines keys), in key insertion order). -/
def runEngine (cfg slcp : List (PyStr × PyStr)) (env : PyStr)
    (files : List (List PyStr)) : EngineResult :=
  runFiles cfg slcp env files (cfg.map Prod.fst)

/-! ## Build-descriptor rewrite for cmake (lines 372-397)

The three filesystem roots are modelled as their absolute path strings. -/

def shellMarkerLit : PyStr := ">:SHELL:".toList

def imacrosLit : PyStr := ":-imacros ".toList

def xFlagLit : PyStr := ":-x ".toList

def gtColonLit : PyStr := ">:".toList

def quoteIndentLit : PyStr := ("    " ++ "\"").toList

/-- One -ffile-prefix-map option line of the prepended block. -/
def prefixMapLine (src dst : PyStr) : PyStr :=
  ("    " ++ "\"" ++ "-ffile-prefix-map=").toList ++ src ++ ['='] ++ dst ++ ['"']

/-- The quoting-fix loop over the descriptor lines: a line that lacks the
SHELL marker but carries an -imacros or -x flag fragment is stripped,
its generator-expression marker replaced, and wrapped in an indented
quoted form; every other line is copied through unchanged. -/
def fixCmakeLoop : List PyStr → List PyStr
  | [] => []
  | line :: rest =>
    (if !containsSub shellMarkerLit line
        && (containsSub imacrosLit line || containsSub xFlagLit line) then
      quoteIndentLit ++ pyStrip (pyReplaceAll gtColonLit shellMarkerLit line) ++ ['"']
    else line) :: fixCmakeLoop rest

/-- Build-descriptor rewrite: assert no root path contains a double quote
(none models the AssertionError crash), prepend the path-mapping option
block, then apply the quoting fix to every descriptor line. -/
def fixedCmakeConfig (sdk buildDir toolchain : PyStr) (lines : List PyStr) :
    Option (List PyStr) :=
  if sdk.contains '"' || buildDir.contains '"' || toolchain.contains '"' then none
  else some
    ("add_compile_options(".toList ::
      prefixMapLine sdk "/gecko_sdk".toList ::
      prefixMapLine buildDir "/src".toList ::
      prefixMapLine toolchain "/toolchain".toList ::
      ")".toList ::
      fixCmakeLoop lines)

/-- Value of the first destination entry with a given name, the slot the
merge loop replaces. -/
def firstVal (n : String) : List ConfigEntry → Option String
  | [] => none
  | e :: rest => if e.name = n then some e.value else firstVal n rest

/-- Residual unused-name set after scanning all header files along the
engine's successful path: the unused set threaded through the per-file scans
when every scan completes without aborting.  This is the set the final
zero-consumption check inspects and reports in full. -/
def scanAll (cfg slcp : List (PyStr × PyStr)) (env : PyStr) :
    List (List PyStr) → List PyStr → Option (List PyStr)
  | [], u => some u
  | f :: fs, u =>
    match processFile cfg slcp env f u with
    | .ok _ _ u2 => scanAll cfg slcp env fs u2
    | _ => none

/-! ## Lemmas -/

theorem foldl_erase_sublist (removeC : List Component) (l : List Component) :
    List.Sublist (removeC.foldl (fun acc c => acc.erase c) l) l := by
  induction removeC generalizing l with
  | nil => exact List.Sublist.refl l
  | cons c t ih =>
    rw [List.foldl_cons]
    exact (ih (l.erase c)).trans (List.erase_sublist c l)

theorem countP_erase_of_neg {p : Component → Bool} {c : Component}
    (hc : p c = false) (l : List Component) :
    (l.erase c).countP p = l.countP p := by
  by_cases hm : c ∈ l
  · obtain ⟨l₁, l₂, _, h₂, h₃⟩ := List.exists_erase_eq hm
    rw [h₃, h₂, List.countP_append, List.countP_append, List.countP_cons, hc]
    simp
  · rw [List.erase_of_not_mem hm]

theorem foldl_erase_countP {p : Component → Bool} (removeC : List Component)
    (hrc : ∀ c ∈ removeC, p c = false) (l : List Component) :
    (removeC.foldl (fun acc c => acc.erase c) l).countP p = l.countP p := by
  induction removeC generalizing l with
  | nil => rfl
  | cons c t ih =>
    rw [List.foldl_cons, ih (fun d hd => hrc d (List.mem_cons_of_mem c hd)),
      countP_erase_of_neg (hrc c (List.mem_cons_self c t))]

theorem firstVal_replaceOrAppend_self (n v : String) (d : List ConfigEntry) :
    firstVal n (replaceOrAppend d n v) = some v := by
  induction d with
  | nil => simp [replaceOrAppend, firstVal]
  | cons e rest ih =>
    by_cases h : e.name = n
    · simp [replaceOrAppend, firstVal, h]
    · simp [replaceOrAppend, firstVal, h, ih]

theorem firstVal_replaceOrAppend_ne {m n : String} (hmn : m ≠ n) (w : String)
    (d : List ConfigEntry) :
    firstVal n (replaceOrAppend d m w) = firstVal n d := by
  induction d with
  | nil => simp [replaceOrAppend, firstVal, hmn]
  | cons e rest ih =>
    by_cases h : e.name = m
    · have : e.name ≠ n := h ▸ hmn
      simp [replaceOrAppend, firstVal, h, this, hmn]
    · simp [replaceOrAppend, firstVal, h, ih]

theorem replaceOrAppend_of_firstVal {n v : String} {d : List ConfigEntry}
    (h : firstVal n d = some v) : replaceOrAppend d n v = d := by
  induction d with
  | nil => simp [firstVal] at h
  | cons e rest ih =>
    by_cases he : e.name = n
    · rw [firstVal, if_pos he] at h
      rw [replaceOrAppend, if_pos he]
      rw [Option.some_inj] at h
      rw [← h]
    · rw [firstVal, if_neg he] at h
      rw [replaceOrAppend, if_neg he, ih h]

theorem firstVal_mergeConfig_not_mem {n : String} {src : List (String × String)}
    (hn : n ∉ src.map Prod.fst) (d : List ConfigEntry) :
    firstVal n (mergeConfig d src) = firstVal n d := by
  induction src generalizing d with
  | nil => rfl
  | cons p t ih =>
    have hne : p.1 ≠ n := by
      intro he
      exact hn (by simp [he])
    have ht : n ∉ t.map Prod.fst := fun hm => hn (by simp [hm])
    rw [mergeConfig, List.foldl_cons, ← mergeConfig, ih ht,
      firstVal_replaceOrAppend_ne hne]

theorem containsSub_hash_false {p l : PyStr} (h : ∀ c ∈ l, c ≠ '#') :
    containsSub ('#' :: p) l = false := by
  induction l with
  | nil => rfl
  | cons c r ih =>
    have hc : c ≠ '#' := h c (List.mem_cons_self c r)
    have hr : containsSub ('#' :: p) r = false :=
      ih fun d hd => h d (List.mem_cons_of_mem c hd)
    simp [containsSub, startsWithL, hr, Ne.symm hc]

theorem startsWithL_append_same (a b c : PyStr) :
    startsWithL (a ++ b) (a ++ c) = startsWithL b c := by
  induction a with
  | nil => rfl
  | cons x xs ih => simp [startsWithL, ih]

theorem pyGet_neg_one (l : List α) : pyGet l (-1) = l.getLast? := by
  cases l with
  | nil => rfl
  | cons x xs =>
    rw [pyGet, if_neg (by decide), if_pos (by simp), List.getLast?_eq_getElem?]
    norm_num

theorem processLines_all_unmatched {cfg slcp : List (PyStr × PyStr)} {env : PyStr}
    {allLines : List PyStr} (rem : List PyStr) (h : ∀ l ∈ rem, scanLine cfg l = none)
    (idx : Nat) (acc : List PyStr) (written : List (PyStr × PyStr)) (unused : List PyStr) :
    processLines cfg slcp env allLines rem idx acc written unused
      = .ok (acc ++ rem) written unused := by
  induction rem generalizing idx acc with
  | nil => simp [processLines]
  | cons l rest ih =>
    rw [processLines, h l (List.mem_cons_self l rest),
      ih (fun x hx => h x (List.mem_cons_of_mem l hx)) (idx + 1) (acc ++ [l])]
    simp

theorem fixCmakeLoop_eq_map (lines : List PyStr) :
    fixCmakeLoop lines = lines.map (fun line =>
      if !containsSub shellMarkerLit line
          && (containsSub imacrosLit line || containsSub xFlagLit line) then
        quoteIndentLit ++ pyStrip (pyReplaceAll gtColonLit shellMarkerLit line) ++ ['"']
      else line) := by
  induction lines with
  | nil => rfl
  | cons l rest ih => rw [fixCmakeLoop, List.map_cons, ih]

theorem processLines_ok_unused_sublist {cfg slcp : List (PyStr × PyStr)} {env : PyStr}
    {allLines : List PyStr} (rem : List PyStr) :
    ∀ (idx : Nat) (acc : List PyStr) (written : List (PyStr × PyStr)) (u : List PyStr)
      (nl : List PyStr) (w : List (PyStr × PyStr)) (u' : List PyStr),
      processLines cfg slcp env allLines rem idx acc written u = .ok nl w u' →
      List.Sublist u' u := by
  induction rem with
  | nil =>
    intro idx acc written u nl w u' h
    rw [processLines] at h
    cases h
    exact List.Sublist.refl u
  | cons line rest ih =>
    intro idx acc written u nl w u' h
    rw [processLines] at h
    cases hscan : scanLine cfg line with
    | none =>
      rw [hscan] at h
      exact ih (idx + 1) (acc ++ [line]) written u nl w u' h
    | some pr =>
      obtain ⟨dfn, tmpl⟩ := pr
      rw [hscan] at h
      dsimp only at h
      cases hget : pyGet allLines ((idx : Int) - 1) with
      | none => rw [hget] at h; simp at h
      | some prev =>
        rw [hget] at h
        dsimp only at h
        cases hg : guardRewrite slcp dfn prev acc ((idx : Int) - 1) with
        | fail c => rw [hg] at h; simp at h
        | cont acc2 =>
          rw [hg] at h
          dsimp only at h
          by_cases hmem : dfn ∈ u
          · rw [if_pos hmem] at h
            exact (ih _ _ _ _ _ _ _ h).trans (List.erase_sublist dfn u)
          · rw [if_neg hmem] at h
            simp at h

theorem processFile_ok_unused_sublist {cfg slcp : List (PyStr × PyStr)} {env : PyStr}
    {f : List PyStr} {u nl : List PyStr} {w : List (PyStr × PyStr)} {u' : List PyStr}
    (h : processFile cfg slcp env f u = .ok nl w u') : List.Sublist u' u :=
  processLines_ok_unused_sublist f 0 [] [] u nl w u' h

theorem runFiles_exitUnused_inv {cfg slcp : List (PyStr × PyStr)} {env : PyStr}
    (files : List (List PyStr)) :
    ∀ (u : List PyStr) (outs : List (Option (List PyStr))) (ns : List PyStr),
      runFiles cfg slcp env files u = .exitUnused outs ns →
      scanAll cfg slcp env files u = some ns ∧ ns ≠ [] ∧ List.Sublist ns u := by
  induction files with
  | nil =>
    intro u outs ns h
    rw [runFiles] at h
    by_cases hu : u.isEmpty = true
    · rw [if_pos hu] at h
      simp at h
    · rw [if_neg hu] at h
      injection h with h1 h2
      rw [← h2]
      refine ⟨rfl, ?_, List.Sublist.refl u⟩
      intro hn
      rw [hn] at hu
      exact hu rfl
  | cons f fs ih =>
    intro u outs ns h
    rw [runFiles] at h
    cases hpf : processFile cfg slcp env f u with
    | ok nl w u2 =>
      rw [hpf] at h
      dsimp only at h
      cases hr : runFiles cfg slcp env fs u2 with
      | ok outs2 => rw [hr] at h; simp [EngineResult.consOut] at h
      | exitDouble outs2 n2 => rw [hr] at h; simp [EngineResult.consOut] at h
      | err outs2 c => rw [hr] at h; simp [EngineResult.consOut] at h
      | exitUnused outs2 ns2 =>
        rw [hr] at h
        dsimp only [EngineResult.consOut] at h
        injection h with h1 h2
        rw [← h2]
        obtain ⟨hscan, hne, hsub⟩ := ih u2 outs2 ns2 hr
        refine ⟨?_, hne, hsub.trans (processFile_ok_unused_sublist hpf)⟩
        rw [scanAll, hpf]
        exact hscan
    | exitDouble n => rw [hpf] at h; simp at h
    | err c => rw [hpf] at h; simp at h

theorem processLines_double_abort (cfg slcp : List (PyStr × PyStr)) (env : PyStr)
    (allLines : List PyStr) (line : PyStr) (rest : List PyStr) (index : Nat)
    (acc acc2 : List PyStr) (written : List (PyStr × PyStr)) (unused : List PyStr)
    (N tmpl prev : PyStr)
    (h1 : scanLine cfg line = some (N, tmpl))
    (hget : pyGet allLines ((index : Int) - 1) = some prev)
    (hg : guardRewrite slcp N prev acc ((index : Int) - 1) = .cont acc2)
    (hN : N ∉ unused) :
    processLines cfg slcp env allLines (line :: rest) index acc written unused
      = .exitDouble N := by
  rw [processLines, h1]
  dsimp only
  rw [hget]
  dsimp only
  rw [hg]
  dsimp only
  rw [if_neg hN]

theorem runFiles_double_prop (cfg slcp : List (PyStr × PyStr)) (env : PyStr)
    (f : List PyStr) (fs : List (List PyStr)) (u : List PyStr) (n : PyStr)
    (h : processFile cfg slcp env f u = .exitDouble n) :
    runFiles cfg slcp env (f :: fs) u = .exitDouble [] n := by
  rw [runFiles, h]

theorem probe_not_in_line {N M v : PyStr}
    (hM : ∀ c ∈ M, c ≠ ' ' ∧ c ≠ '#') (hv : ∀ c ∈ v, c ≠ '#')
    (hpre : ∃ r, M = N ++ r ∧ r ≠ []) :
    containsSub (defineProbe N) (defineKw ++ M ++ [' '] ++ v) = false := by
  obtain ⟨r, hMr, hrne⟩ := hpre
  obtain ⟨m0, r', hr⟩ := List.exists_cons_of_ne_nil hrne
  rw [hr] at hMr
  have hmem : m0 ∈ M := by
    rw [hMr]
    exact List.mem_append_right N (List.mem_cons_self m0 r')
  have hm0 : m0 ≠ ' ' := (hM m0 hmem).1
  have hkw : defineKw = '#' :: "define ".toList := by decide
  have hdt : ∀ c ∈ "define ".toList, c ≠ '#' := by decide
  rw [defineProbe, hkw]
  have hshape : ('#' :: "define ".toList) ++ M ++ [' '] ++ v
      = '#' :: ("define ".toList ++ (M ++ ([' '] ++ v))) := by
    simp
  rw [hshape, containsSub]
  have hhash : containsSub ('#' :: ("define ".toList ++ (N ++ [' '])))
      ("define ".toList ++ (M ++ ([' '] ++ v))) = false := by
    apply containsSub_hash_false
    intro c hc
    rcases List.mem_append.mp hc with hc1 | hc2
    · exact hdt c hc1
    · rcases List.mem_append.mp hc2 with hc3 | hc4
      · exact (hM c hc3).2
      · rcases List.mem_append.mp hc4 with hc5 | hc6
        · simp at hc5
          rw [hc5]
          decide
        · exact hv c hc6
  have hpref : startsWithL ('#' :: ("define ".toList ++ (N ++ [' '])))
      ('#' :: ("define ".toList ++ (M ++ ([' '] ++ v)))) = false := by
    rw [startsWithL]
    simp only [decide_eq_true_eq]
    rw [startsWithL_append_same]
    rw [hMr]
    have : (N ++ m0 :: r') ++ ([' '] ++ v) = N ++ (m0 :: (r' ++ ([' '] ++ v))) := by
      simp
    rw [this, startsWithL_append_same, startsWithL]
    simp [Ne.symm hm0]
  have hassoc : ('#' :: "define ".toList) ++ N ++ [' ']
      = '#' :: ("define ".toList ++ (N ++ [' '])) := by
    simp
  rw [hassoc, hpref, hhash]
  rfl

/-! ## Claims -/

/-- Claim C1: on the header "#ifndef FOO\n#define FOO 1\n#endif" with requested
c_defines mapping FOO to the template "2" (no substitution token), the
injection engine rewrites the file to exactly "#if 1\n#define FOO 2\n#endif",
preserving the single-space alignment between identifier and value, records
FOO as written exactly once and consumes it exactly once (final unused set
empty), and the run completes successfully writing the file back. -/
theorem c1_injection_example :
    processFile [("FOO".toList, "2".toList)] [] "abcd1234".toList
      ["#ifndef FOO".toList, "#define FOO 1".toList, "#endif".toList] ["FOO".toList]
      = .ok ["#if 1".toList, "#define FOO 2".toList, "#endif".toList]
          [("FOO".toList, "2".toList)] [] ∧
    runEngine [("FOO".toList, "2".toList)] [] "abcd1234".toList
      [["#ifndef FOO".toList, "#define FOO 1".toList, "#endif".toList]]
      = .ok [some ["#if 1".toList, "#define FOO 2".toList, "#endif".toList]] :=
  ⟨by decide, by decide⟩

/-- Claim C2 counterexample: with requested defines A and B each occurring in
both scanned headers (so each would be consumed twice), the run aborts at the
very first double consumption with a diagnostic naming only A; the second
double-consumed name B is never reported, refuting "the diagnostic names both
of them". -/
theorem c2_counterexample_names_first_only :
    runEngine [("A".toList, "9".toList), ("B".toList, "8".toList)] [] []
      [["#define A 1".toList, "#define B 2".toList],
       ["#define A 1".toList, "#define B 2".toList]]
      = .exitDouble [some ["#define A 9".toList, "#define B 8".toList]] "A".toList := by
  decide

/-- Claim C2 amended: a requested define consumed zero times causes an abort
whose diagnostic names every unused define, while a define consumed more than
once causes an immediate abort naming only the first double-consumed define,
not every offending name.  First conjunct: every zero-consumption abort
reports the entire residual set of requested names after scanning all headers
(a non-empty list of still-unconsumed requested names), not a truncation of
it.  Second conjunct: at the first line whose matched define was already
consumed, the scan aborts at once with a diagnostic naming only that define,
whatever the remaining lines hold.  Third conjunct: that abort propagates
through the file loop unchanged, and no further header is scanned. -/
theorem c2_amended_reporting :
    (∀ (cfg slcp : List (PyStr × PyStr)) (env : PyStr) (files : List (List PyStr))
        (u : List PyStr) (outs : List (Option (List PyStr))) (ns : List PyStr),
      runFiles cfg slcp env files u = .exitUnused outs ns →
      scanAll cfg slcp env files u = some ns ∧ ns ≠ [] ∧ List.Sublist ns u) ∧
    (∀ (cfg slcp : List (PyStr × PyStr)) (env : PyStr) (allLines : List PyStr)
        (line : PyStr) (rest : List PyStr) (index : Nat) (acc acc2 : List PyStr)
        (written : List (PyStr × PyStr)) (unused : List PyStr) (N tmpl prev : PyStr),
      scanLine cfg line = some (N, tmpl) →
      pyGet allLines ((index : Int) - 1) = some prev →
      guardRewrite slcp N prev acc ((index : Int) - 1) = .cont acc2 →
      N ∉ unused →
      processLines cfg slcp env allLines (line :: rest) index acc written unused
        = .exitDouble N) ∧
    (∀ (cfg slcp : List (PyStr × PyStr)) (env : PyStr) (f : List PyStr)
        (fs : List (List PyStr)) (u : List PyStr) (n : PyStr),
      processFile cfg slcp env f u = .exitDouble n →
      runFiles cfg slcp env (f :: fs) u = .exitDouble [] n) :=
  ⟨fun _ _ _ files u outs ns h => runFiles_exitUnused_inv files u outs ns h,
    fun cfg slcp env allLines line rest index acc acc2 written unused N tmpl prev
        h1 hget hg hN =>
      processLines_double_abort cfg slcp env allLines line rest index acc acc2
        written unused N tmpl prev h1 hget hg hN,
    fun cfg slcp env f fs u n h => runFiles_double_prop cfg slcp env f fs u n h⟩

/-- Witness for C2 amended: the first conjunct applied to the run on a single
matchless header, whose abort names both unused defines A and B; the second
and third conjuncts applied to a header consuming A a second time, whose
abort names only A with a further header left unscanned. -/
theorem c2_amended_reporting_witness :
    (scanAll [("A".toList, "9".toList), ("B".toList, "8".toList)] [] []
        [["int x;".toList]] ["A".toList, "B".toList] = some ["A".toList, "B".toList] ∧
      (["A".toList, "B".toList] : List PyStr) ≠ [] ∧
      List.Sublist (["A".toList, "B".toList] : List PyStr) ["A".toList, "B".toList]) ∧
    processLines [("A".toList, "9".toList), ("B".toList, "8".toList)] [] []
      ["#define A 1".toList, "#define B 2".toList]
      ("#define A 1".toList :: ["#define B 2".toList]) 0 [] [] []
      = .exitDouble "A".toList ∧
    runFiles [("A".toList, "9".toList), ("B".toList, "8".toList)] [] []
      (["#define A 1".toList, "#define B 2".toList] :: [["int x;".toList]]) []
      = .exitDouble [] "A".toList :=
  ⟨c2_amended_reporting.1 [("A".toList, "9".toList), ("B".toList, "8".toList)] [] []
      [["int x;".toList]] ["A".toList, "B".toList] [none] ["A".toList, "B".toList]
      (by decide),
    c2_amended_reporting.2.1 [("A".toList, "9".toList), ("B".toList, "8".toList)] [] []
      ["#define A 1".toList, "#define B 2".toList] "#define A 1".toList
      ["#define B 2".toList] 0 [] [] [] [] "A".toList "9".toList
      "#define B 2".toList (by decide) (by decide) (by decide) (by decide),
    c2_amended_reporting.2.2 [("A".toList, "9".toList), ("B".toList, "8".toList)] [] []
      ["#define A 1".toList, "#define B 2".toList] [["int x;".toList]] []
      "A".toList (by decide)⟩

/-- Claim C3: resolving base components [mgm210pb32jia, bluetooth_stack,
led_driver] for device efr32fg14p231f256gm32 with an empty add-list and
remove-list [led_driver] strips the chip-specific identifier, appends the
device, and removes led_driver, yielding exactly
[bluetooth_stack, efr32fg14p231f256gm32] in that order. -/
theorem c3_resolution_example :
    resolveComponents [⟨"mgm210pb32jia"⟩, ⟨"bluetooth_stack"⟩, ⟨"led_driver"⟩]
      "efr32fg14p231f256gm32" [] [⟨"led_driver"⟩]
      = [⟨"bluetooth_stack"⟩, ⟨"efr32fg14p231f256gm32"⟩] := by
  decide

/-- Claim C4 counterexample: resolution does not guarantee unique identifiers
or a unique device entry for every input.  With base [device_x] (which does
not match the chip/board pattern and so survives the strip) and device
device_x, the resolved list is [device_x, device_x]: its identifiers are not
duplicate-free and two entries equal the device identifier. -/
theorem c4_counterexample_duplicate_device :
    ¬ (((resolveComponents [⟨"device_x"⟩] "device_x" [] []).map Component.id).Nodup ∧
      (resolveComponents [⟨"device_x"⟩] "device_x" [] []).countP
        (fun c => c.id == "device_x") = 1) := by
  decide

/-- Claim C4 amended: whenever the surviving (non chip/board-specific) base
identifiers together with the add-list identifiers are duplicate-free and
distinct from the device identifier, and no remove-list entry carries the
device identifier, the resolved component list has duplicate-free identifiers
and exactly one entry whose identifier equals the device identifier. -/
theorem c4_amended_unique_components (base addC removeC : List Component)
    (device : String)
    (h1 : ((base.filter (fun c => !chipSpecificMatch c.id) ++ addC).map Component.id).Nodup)
    (h2 : ∀ c ∈ base.filter (fun c => !chipSpecificMatch c.id) ++ addC, c.id ≠ device)
    (h3 : ∀ c ∈ removeC, c.id ≠ device) :
    ((resolveComponents base device addC removeC).map Component.id).Nodup ∧
    (resolveComponents base device addC removeC).countP (fun c => c.id == device) = 1 := by
  have hres : resolveComponents base device addC removeC
      = removeC.foldl (fun acc c => acc.erase c)
          ((base.filter (fun c => !chipSpecificMatch c.id) ++ [Component.mk device]) ++ addC) := rfl
  have hnd : (((base.filter (fun c => !chipSpecificMatch c.id) ++ [Component.mk device]) ++ addC).map
      Component.id).Nodup := by
    have he : ((base.filter (fun c => !chipSpecificMatch c.id) ++ [Component.mk device]) ++ addC).map
        Component.id
        = (base.filter (fun c => !chipSpecificMatch c.id)).map Component.id
          ++ device :: addC.map Component.id := by
      simp
    rw [he, List.nodup_middle, List.nodup_cons]
    refine ⟨?_, ?_⟩
    · intro hmem
      rw [← List.map_append] at hmem
      obtain ⟨c, hc, hcid⟩ := List.mem_map.mp hmem
      exact h2 c hc hcid
    · rw [← List.map_append]
      exact h1
  constructor
  · rw [hres]
    exact List.Nodup.sublist
      ((foldl_erase_sublist removeC _).map Component.id) hnd
  · rw [hres, foldl_erase_countP removeC
      (fun c hc => by simp [h3 c hc]) _]
    rw [List.countP_append, List.countP_append]
    have hz : ∀ l : List Component, (∀ c ∈ l, c.id ≠ device) → l.countP
        (fun c => c.id == device) = 0 := by
      intro l hl
      exact List.countP_eq_zero.mpr (fun c hc => by simp [hl c hc])
    rw [hz _ (fun c hc => h2 c (List.mem_append_left _ hc)),
      hz _ (fun c hc => h2 c (List.mem_append_right _ hc))]
    simp

/-- Witness for C4 amended at a concrete input. -/
theorem c4_amended_unique_components_witness :
    (((([⟨"mgm210pb32jia"⟩, ⟨"bluetooth_stack"⟩] : List Component).filter
        (fun c => !chipSpecificMatch c.id) ++ ([] : List Component)).map Component.id).Nodup ∧
      (∀ c ∈ ([⟨"mgm210pb32jia"⟩, ⟨"bluetooth_stack"⟩] : List Component).filter
        (fun c => !chipSpecificMatch c.id) ++ ([] : List Component),
        c.id ≠ "efr32fg14p231f256gm32") ∧
      (∀ c ∈ ([⟨"led_driver"⟩] : List Component), c.id ≠ "efr32fg14p231f256gm32")) ∧
    (((resolveComponents [⟨"mgm210pb32jia"⟩, ⟨"bluetooth_stack"⟩]
        "efr32fg14p231f256gm32" [] [⟨"led_driver"⟩]).map Component.id).Nodup ∧
      (resolveComponents [⟨"mgm210pb32jia"⟩, ⟨"bluetooth_stack"⟩]
        "efr32fg14p231f256gm32" [] [⟨"led_driver"⟩]).countP
        (fun c => c.id == "efr32fg14p231f256gm32") = 1) :=
  ⟨⟨by decide, by decide, by decide⟩,
    c4_amended_unique_components _ _ _ _ (by decide) (by decide) (by decide)⟩

/-- Claim C5: the configuration/define merge is idempotent.  For every
destination ordered entry sequence and every (name, value) source map (a map,
so its names are distinct), applying the replace-or-append merge twice with
the same map produces an ordered result identical to applying it once. -/
theorem c5_merge_idempotent (dest : List ConfigEntry) (src : List (String × String))
    (h : (src.map Prod.fst).Nodup) :
    mergeConfig (mergeConfig dest src) src = mergeConfig dest src := by
  revert h
  induction src generalizing dest with
  | nil => intro _; rfl
  | cons p t ih =>
    intro h
    obtain ⟨n, v⟩ := p
    simp only [List.map_cons, List.nodup_cons] at h
    obtain ⟨hn, ht⟩ := h
    have e1 : mergeConfig dest ((n, v) :: t) = mergeConfig (replaceOrAppend dest n v) t := by
      rw [mergeConfig, List.foldl_cons]; rfl
    rw [e1]
    have h1 : firstVal n (mergeConfig (replaceOrAppend dest n v) t) = some v := by
      rw [firstVal_mergeConfig_not_mem hn, firstVal_replaceOrAppend_self]
    show mergeConfig (mergeConfig (replaceOrAppend dest n v) t) ((n, v) :: t)
      = mergeConfig (replaceOrAppend dest n v) t
    rw [mergeConfig, List.foldl_cons]
    show mergeConfig
      (replaceOrAppend (mergeConfig (replaceOrAppend dest n v) t) n v) t
      = mergeConfig (replaceOrAppend dest n v) t
    rw [replaceOrAppend_of_firstVal h1]
    exact ih (replaceOrAppend dest n v) ht

/-- Witness for C5 at a concrete input. -/
theorem c5_merge_idempotent_witness :
    ((([("TX_POWER", "10"), ("NEW", "1")] : List (String × String)).map Prod.fst).Nodup) ∧
    mergeConfig
      (mergeConfig [⟨"TX_POWER", "5"⟩, ⟨"RETRIES", "3"⟩]
        [("TX_POWER", "10"), ("NEW", "1")])
      [("TX_POWER", "10"), ("NEW", "1")]
      = mergeConfig [⟨"TX_POWER", "5"⟩, ⟨"RETRIES", "3"⟩]
        [("TX_POWER", "10"), ("NEW", "1")] :=
  ⟨by decide, c5_merge_idempotent _ _ (by decide)⟩

/-- Claim C9: when the destination sequence contains several entries with the
same name, a merge step for that name replaces the value of only the first
matching entry and leaves every later entry (in particular later entries with
the same name, which may occur in d2) unchanged, appending nothing. -/
theorem c9_merge_replaces_first_only (d1 d2 : List ConfigEntry) (n v v0 : String)
    (h : ∀ e ∈ d1, e.name ≠ n) :
    mergeConfig (d1 ++ ⟨n, v0⟩ :: d2) [(n, v)] = d1 ++ ⟨n, v⟩ :: d2 := by
  show replaceOrAppend (d1 ++ ⟨n, v0⟩ :: d2) n v = d1 ++ ⟨n, v⟩ :: d2
  induction d1 with
  | nil => simp [replaceOrAppend]
  | cons e r ih =>
    have he : e.name ≠ n := h e (List.mem_cons_self e r)
    rw [List.cons_append, replaceOrAppend, if_neg he,
      ih (fun x hx => h x (List.mem_cons_of_mem e hx)), List.cons_append]

/-- Witness for C9 at a concrete input with a duplicated name in the
destination: only the first RETRIES entry is replaced, the later one is
untouched and nothing is appended. -/
theorem c9_merge_replaces_first_only_witness :
    (∀ e ∈ ([⟨"TX_POWER", "5"⟩] : List ConfigEntry), e.name ≠ "RETRIES") ∧
    mergeConfig ([⟨"TX_POWER", "5"⟩] ++ ⟨"RETRIES", "3"⟩ :: [⟨"RETRIES", "7"⟩])
      [("RETRIES", "9")]
      = [⟨"TX_POWER", "5"⟩] ++ ⟨"RETRIES", "9"⟩ :: [⟨"RETRIES", "7"⟩] :=
  ⟨by decide, c9_merge_replaces_first_only _ _ _ _ _ (by decide)⟩

/-- Claim C6: the engine rewrites a header line for a requested name N only if
the line contains the exact substring "#define N " with trailing space (last
conjunct); consequently a declaration line "#define M value" whose identifier
M is a longer identifier of which N is a proper prefix does not contain the
probe, is left unchanged, and does not consume N (the identifier and the
declared value contain no hash character, and the identifier no space). -/
theorem c6_prefix_no_rewrite (N tmpl M v : PyStr) (slcp : List (PyStr × PyStr))
    (env : PyStr) (u0 : List PyStr)
    (hM : ∀ c ∈ M, c ≠ ' ' ∧ c ≠ '#') (hv : ∀ c ∈ v, c ≠ '#')
    (hpre : ∃ r, M = N ++ r ∧ r ≠ []) :
    containsSub (defineProbe N) (defineKw ++ M ++ [' '] ++ v) = false ∧
    processFile [(N, tmpl)] slcp env [defineKw ++ M ++ [' '] ++ v] u0
      = .ok [defineKw ++ M ++ [' '] ++ v] [] u0 ∧
    (∀ (cfg : List (PyStr × PyStr)) (l : PyStr) (pr : PyStr × PyStr),
      scanLine cfg l = some pr → containsSub (defineProbe pr.1) l = true) := by
  have hA := probe_not_in_line hM hv hpre
  refine ⟨hA, ?_, ?_⟩
  · have hnone : ∀ l ∈ [defineKw ++ M ++ [' '] ++ v],
        scanLine [(N, tmpl)] l = none := by
      intro l hl
      rw [List.mem_singleton] at hl
      rw [hl, scanLine, List.find?]
      have hA2 : containsSub (defineProbe N) (defineKw ++ (M ++ ' ' :: v)) = false := by
        have hsh : defineKw ++ (M ++ ' ' :: v) = defineKw ++ M ++ [' '] ++ v := by
          simp
        rw [hsh, hA]
      simp [hA2]
    rw [processFile, processLines_all_unmatched _ hnone 0 [] [] u0]
    simp
  · intro cfg l pr hf
    rw [scanLine] at hf
    have hp := List.find?_some hf
    simpa using hp

/-- Witness for C6 at the concrete prefix pair FOO and FOOX. -/
theorem c6_prefix_no_rewrite_witness :
    ((∀ c ∈ "FOOX".toList, c ≠ ' ' ∧ c ≠ '#') ∧ (∀ c ∈ "1".toList, c ≠ '#') ∧
      (∃ r, "FOOX".toList = "FOO".toList ++ r ∧ r ≠ [])) ∧
    (containsSub (defineProbe "FOO".toList)
        (defineKw ++ "FOOX".toList ++ [' '] ++ "1".toList) = false ∧
      processFile [("FOO".toList, "2".toList)] [] "h".toList
        [defineKw ++ "FOOX".toList ++ [' '] ++ "1".toList] ["FOO".toList]
        = .ok [defineKw ++ "FOOX".toList ++ [' '] ++ "1".toList] [] ["FOO".toList] ∧
      (∀ (cfg : List (PyStr × PyStr)) (l : PyStr) (pr : PyStr × PyStr),
        scanLine cfg l = some pr → containsSub (defineProbe pr.1) l = true)) :=
  ⟨⟨by decide, by decide, ⟨"X".toList, by decide, by decide⟩⟩,
    c6_prefix_no_rewrite "FOO".toList "2".toList "FOOX".toList "1".toList [] "h".toList
      ["FOO".toList] (by decide) (by decide) ⟨"X".toList, by decide, by decide⟩⟩

/-- Claim C7: the cmake build-descriptor rewrite prepends the path-mapping
option block and then maps every descriptor line pointwise: a line containing
the -imacros or -x flag fragment and not already carrying the SHELL marker is
replaced by the whitespace-stripped line with the generator-expression marker
replaced by its SHELL form, wrapped in a four-space-indented double quote and
a trailing double quote; every other line is copied through unchanged. -/
theorem c7_cmake_quoting_fix (sdk buildDir toolchain : PyStr) (lines : List PyStr)
    (h : (sdk.contains '"' || buildDir.contains '"' || toolchain.contains '"') = false) :
    fixedCmakeConfig sdk buildDir toolchain lines
      = some ("add_compile_options(".toList ::
          prefixMapLine sdk "/gecko_sdk".toList ::
          prefixMapLine buildDir "/src".toList ::
          prefixMapLine toolchain "/toolchain".toList ::
          ")".toList ::
          lines.map (fun line =>
            if !containsSub shellMarkerLit line
                && (containsSub imacrosLit line || containsSub xFlagLit line) then
              quoteIndentLit ++ pyStrip (pyReplaceAll gtColonLit shellMarkerLit line) ++ ['"']
            else line)) := by
  have hcond : ¬ ((sdk.contains '"' || buildDir.contains '"'
      || toolchain.contains '"') = true) := by
    intro hc
    rw [h] at hc
    exact Bool.false_ne_true hc
  rw [fixedCmakeConfig, if_neg hcond, fixCmakeLoop_eq_map]

/-- Witness for C7 at concrete paths and a concrete descriptor with one
defective line and one ordinary line. -/
theorem c7_cmake_quoting_fix_witness :
    ((("/sdk".toList).contains '"' || ("/bld".toList).contains '"'
        || ("/tch".toList).contains '"') = false) ∧
    fixedCmakeConfig "/sdk".toList "/bld".toList "/tch".toList
      ["set(X 1)".toList, " $<$<COMPILE_LANGUAGE:C>:-imacros pre.h> ".toList]
      = some ("add_compile_options(".toList ::
          prefixMapLine "/sdk".toList "/gecko_sdk".toList ::
          prefixMapLine "/bld".toList "/src".toList ::
          prefixMapLine "/tch".toList "/toolchain".toList ::
          ")".toList ::
          (["set(X 1)".toList, " $<$<COMPILE_LANGUAGE:C>:-imacros pre.h> ".toList].map
            (fun line =>
              if !containsSub shellMarkerLit line
                  && (containsSub imacrosLit line || containsSub xFlagLit line) then
                quoteIndentLit ++ pyStrip (pyReplaceAll gtColonLit shellMarkerLit line) ++ ['"']
              else line))) :=
  ⟨by decide, c7_cmake_quoting_fix _ _ _ _ (by decide)⟩

/-- Claim C8: when a requested define declaration sits on the first line of a
header, the Python expression for the immediately preceding line indexes the
line list at -1 and therefore yields the last line of the file; if that last
line contains the include-guard opening (with a matching guarded identifier
and no conflicting project define) or the not-configured warning shape, the
guard rewrite or warning removal is attempted on the still-empty output
accumulator at index -1 and the scan aborts with an uncaught index error, not
with a named diagnostic. -/
theorem c8_first_line_guard_index_error (cfg slcp : List (PyStr × PyStr))
    (env : PyStr) (l0 L : PyStr) (rest : List PyStr) (N tmpl : PyStr)
    (u : List PyStr)
    (h1 : scanLine cfg l0 = some (N, tmpl))
    (hL : (l0 :: rest).getLast? = some L)
    (hcase :
      (containsSub ifndefLit L = true ∧ matchIfndefIdent L = some N ∧
        slcp.any (fun c => c.1 = N) = false) ∨
      (containsSub ifndefLit L = false ∧ containsSub warningLit L = true ∧
        matchWarningOk L = true)) :
    pyGet (l0 :: rest) (-1) = some L ∧
    processFile cfg slcp env (l0 :: rest) u = .err .indexError := by
  have hget : pyGet (l0 :: rest) (-1) = some L := by
    rw [pyGet_neg_one]
    exact hL
  refine ⟨hget, ?_⟩
  have hidx : ((0 : Nat) : Int) - 1 = -1 := by decide
  rw [processFile, processLines, h1]
  simp only [hidx, hget]
  have hsetnil : pySet ([] : List PyStr) (-1 : Int) ifOneLit = none := by decide
  have hpopnil : pyPop ([] : List PyStr) (-1 : Int) = none := by decide
  rcases hcase with ⟨ha, hb, hc⟩ | ⟨ha, hb, hc⟩
  · simp [guardRewrite, ha, hb, hc, hsetnil]
  · simp [guardRewrite, ha, hb, hc, hpopnil]

/-- Witness for C8: a two-line header whose first line declares the requested
define and whose last line is the matching include-guard opening. -/
theorem c8_first_line_guard_index_error_witness :
    (scanLine [("FOO".toList, "2".toList)] "#define FOO 1".toList
        = some ("FOO".toList, "2".toList) ∧
      (["#define FOO 1".toList, "#ifndef FOO".toList] : List PyStr).getLast?
        = some "#ifndef FOO".toList ∧
      containsSub ifndefLit "#ifndef FOO".toList = true ∧
      matchIfndefIdent "#ifndef FOO".toList = some "FOO".toList ∧
      (([] : List (PyStr × PyStr)).any (fun c => c.1 = "FOO".toList)) = false) ∧
    (pyGet (["#define FOO 1".toList, "#ifndef FOO".toList] : List PyStr) (-1)
        = some "#ifndef FOO".toList ∧
      processFile [("FOO".toList, "2".toList)] [] "h".toList
        ["#define FOO 1".toList, "#ifndef FOO".toList] ["FOO".toList]
        = .err .indexError) :=
  ⟨⟨by decide, by decide, by decide, by decide, by decide⟩,
    c8_first_line_guard_index_error [("FOO".toList, "2".toList)] [] "h".toList
      "#define FOO 1".toList "#ifndef FOO".toList ["#ifndef FOO".toList]
      "FOO".toList "2".toList ["FOO".toList] (by decide) (by decide)
      (Or.inl ⟨by decide, by decide, by decide⟩)⟩

/-- Claim C10: a scanned header file in which no line contains the probe of
any requested define is processed to an unchanged line list with an empty
written map and an untouched unused set, and the run records it as not
written back (its on-disk contents stay byte-for-byte unchanged); only files
with at least one consumed define are recorded as rewritten. -/
theorem c10_unmatched_file_not_written (cfg slcp : List (PyStr × PyStr))
    (env : PyStr) (F : List PyStr) (fs : List (List PyStr)) (u : List PyStr)
    (h : ∀ l ∈ F, scanLine cfg l = none) :
    processFile cfg slcp env F u = .ok F [] u ∧
    runFiles cfg slcp env (F :: fs) u = (runFiles cfg slcp env fs u).consOut none := by
  have hp : processFile cfg slcp env F u = .ok F [] u := by
    rw [processFile, processLines_all_unmatched F h 0 [] [] u]
    simp
  refine ⟨hp, ?_⟩
  rw [runFiles, hp]
  simp

/-- Witness for C10 at a concrete header with no matching line. -/
theorem c10_unmatched_file_not_written_witness :
    (∀ l ∈ (["int x;".toList, "// end".toList] : List PyStr),
        scanLine [("FOO".toList, "2".toList)] l = none) ∧
    (processFile [("FOO".toList, "2".toList)] [] "h".toList
        ["int x;".toList, "// end".toList] ["FOO".toList]
        = .ok ["int x;".toList, "// end".toList] [] ["FOO".toList] ∧
      runFiles [("FOO".toList, "2".toList)] [] "h".toList
        [["int x;".toList, "// end".toList]] ["FOO".toList]
        = (runFiles [("FOO".toList, "2".toList)] [] "h".toList [] ["FOO".toList]).consOut
            none) :=
  ⟨by decide,
    c10_unmatched_file_not_written [("FOO".toList, "2".toList)] [] "h".toList
      ["int x;".toList, "// end".toList] [] ["FOO".toList] (by decide)⟩

end GenProj
